import Mathlib

/-!
Verification model of the reactive signal core of `git-illuma/react`
(`src/signals/core/{context,signal,computed,linked,utils,types}.ts`).

The embedding is a closed operational model:

* a computation (the closure passed to `computed` / `linkedSignal`) is a
  deep-embedded read tree `Comp V T`: it reads writable signal cells by
  index, may throw, and finally returns a value;
* the dependency tracking context (`SignalContext`) is an explicit stack of
  frames, each frame an insertion-ordered duplicate-free list of the signal
  indices registered while it was on top;
* a system is a heap of writable signal cells plus one derived (computed or
  linked) signal; a writable cell's listener is either an external logging
  listener (identified by a numeric id) or the derived signal's internal
  `passUpdate` handler, and the derived signal's listeners are external
  logging listeners, mirroring the one-derived-layer scenarios of the spec;
* operations return `Except Unit`: the `.error` case models a JavaScript
  exception propagating out of the call (properties of the partially
  mutated state after a propagated exception are not studied here);
* notifications are recorded as emission events carrying the listener id,
  the argument passed to the listener, and the value a read of the
  notifying signal would return at the moment the listener runs.

JavaScript `Set` insertion order / reference deduplication is modelled by
duplicate-free lists with `addL` (append if absent) and `removeL` (remove
the occurrence), and `===` by per-type boolean equality fields.
-/

/-- A deep-embedded computation over writable signal cells: it can read the
cell at an index (the read value feeds the continuation), throw, or return. -/
inductive Comp (V : Type) (T : Type) where
  | ret : T → Comp V T
  | read : Nat → (V → Comp V T) → Comp V T
  | thrw : Comp V T

/-- JS `Set.add`: append iff not already present (insertion order kept). -/
def addL {α : Type} [DecidableEq α] (xs : List α) (a : α) : List α :=
  if a ∈ xs then xs else xs ++ [a]

/-- JS `Set.delete`: remove the (first) occurrence of the element. -/
def removeL {α : Type} [DecidableEq α] : List α → α → List α
  | [], _ => []
  | x :: xs, a => if x = a then xs else x :: removeL xs a

/-- A tracking frame: the signal indices registered while it was topmost,
in insertion order, duplicate-free (`context.add` in `SignalContext.scan`). -/
abbrev Frame := List Nat

/-- The tracking context stack (`SignalContext._contextStack`); the head of
the list is the top of the stack (`_contextStack[length - 1]`). -/
abbrev CtxStack := List Frame

/-- `SignalContext.isContextOpen`: whether any frame is open. -/
def isContextOpen (st : CtxStack) : Bool := st.length > 0

/-- `SignalContext.register`: add the signal to the top frame, if any frame
is open; a no-op on an empty stack. -/
def register (i : Nat) : CtxStack → CtxStack
  | [] => []
  | f :: rest => addL f i :: rest

/-- Run a computation against a heap `h` of current writable values,
threading the tracking stack: each signal read calls `register` (the read
path of `signal`), and a throw aborts with `.error` (the thrown value). -/
def runComp {V T : Type} (h : Nat → V) : Comp V T → CtxStack → Except Unit T × CtxStack
  | .ret t, st => (.ok t, st)
  | .thrw, st => (.error (), st)
  | .read i k, st => runComp h (k (h i)) (register i st)

/-- `SignalContext.scan`: push a fresh frame, run the computation swallowing
any throw (`try/catch` with empty catch), pop the frame (`finally`), and
return the collected set.  Returns the collected frame and the stack as it
stands after the `finally` pop. -/
def scan {V T : Type} (h : Nat → V) (c : Comp V T) (st : CtxStack) : Frame × CtxStack :=
  let out := runComp h c ([] :: st)
  (out.2.headD [], out.2.tail)

/-- The pure value of a computation on a heap (no tracking involved). -/
def evalComp {V T : Type} (h : Nat → V) : Comp V T → Except Unit T
  | .ret t => .ok t
  | .thrw => .error ()
  | .read i k => evalComp h (k (h i))

/-- The indices read by a computation on a heap, up to its return or its
throw, in first-read order and duplicate-free (accumulator form). -/
def readsAux {V T : Type} (h : Nat → V) : Comp V T → Frame → Frame
  | .ret _, f => f
  | .thrw, f => f
  | .read i k, f => readsAux h (k (h i)) (addL f i)

/-- The indices read by a computation on a heap before it returns or throws. -/
def readsComp {V T : Type} (h : Nat → V) (c : Comp V T) : Frame := readsAux h c []

theorem runComp_stack {V T : Type} (h : Nat → V) :
    ∀ (c : Comp V T) (f : Frame) (st : CtxStack),
      (runComp h c (f :: st)).2 = readsAux h c f :: st := by
  intro c
  induction c with
  | ret t => intro f st; rfl
  | thrw => intro f st; rfl
  | read i k ih => intro f st; simpa [runComp, register, readsAux] using ih (h i) (addL f i) st

theorem runComp_fst {V T : Type} (h : Nat → V) :
    ∀ (c : Comp V T) (st : CtxStack), (runComp h c st).1 = evalComp h c := by
  intro c
  induction c with
  | ret t => intro st; rfl
  | thrw => intro st; rfl
  | read i k ih => intro st; simpa [runComp, evalComp] using ih (h i) (register i st)

theorem scan_eq {V T : Type} (h : Nat → V) (c : Comp V T) (st : CtxStack) :
    scan h c st = (readsComp h c, st) := by
  simp [scan, readsComp, runComp_stack]

/-- Accumulator monotonicity: every index already in the frame stays in it. -/
theorem mem_readsAux_of_mem {V T : Type} (h : Nat → V) :
    ∀ (c : Comp V T) (f : Frame) (j : Nat), j ∈ f → j ∈ readsAux h c f := by
  intro c
  induction c with
  | ret t => intro f j hj; simpa [readsAux] using hj
  | thrw => intro f j hj; simpa [readsAux] using hj
  | read i k ih =>
      intro f j hj
      apply ih (h i)
      by_cases hmem : i ∈ f <;> simp [addL, hmem, hj]

/-- Two heaps agreeing on every index a computation reads give the same
value and the same read set. -/
theorem evalComp_congr {V T : Type} (h h' : Nat → V) :
    ∀ (c : Comp V T) (f : Frame),
      (∀ j, j ∈ readsAux h c f → h j = h' j) →
      evalComp h c = evalComp h' c ∧ readsAux h c f = readsAux h' c f := by
  intro c
  induction c with
  | ret t => intro f _; exact ⟨rfl, rfl⟩
  | thrw => intro f _; exact ⟨rfl, rfl⟩
  | read i k ih =>
      intro f hagree
      have hi : h i = h' i :=
        hagree i (mem_readsAux_of_mem h (k (h i)) (addL f i) i
          (by by_cases hmem : i ∈ f <;> simp [addL, hmem]))
      have := ih (h i) (addL f i) (by
        intro j hj
        exact hagree j (by simpa [readsAux] using hj))
      refine ⟨?_, ?_⟩
      · simpa [evalComp, hi] using this.1
      · simpa [readsAux, hi] using this.2

/-- A listener stored in a writable signal's listener set: either an
external consumer (a logging callback identified by a numeric id) or the
derived signal's internal `passUpdate` dependency-changed handler. -/
inductive Listener where
  | ext : Nat → Listener
  | pass : Listener
deriving DecidableEq

/-- A recorded notification: the external listener's id, the argument the
listener was called with, and the value a read of the notifying signal
returns at the moment the listener runs.  `wEv` events come from a writable
signal's notification loop, `dEv` events from the derived signal's. -/
inductive Ev (V T : Type) where
  | wEv : Nat → V → V → Ev V T
  | dEv : Nat → T → T → Ev V T
deriving DecidableEq

/-- The state of a writable signal (`signal`): current value, its equality
policy (`opts?.equal ?? defaultEqual`), and its listener set in insertion
order. -/
structure WSig (V : Type) where
  value : V
  equal : V → V → Bool
  listeners : List Listener

/-- The state of a computed signal (`computed`): the computation, the
equality policy, the cached value, the listener set (external ids), the
cleanup set (the writable indices whose subscriptions it holds; each
`caller.subscribe(passUpdate)` returns a fresh closure, so this is a plain
append-ordered list), and the dependency set. -/
structure CSig (V T : Type) where
  comp : Comp V T
  equal : T → T → Bool
  value : T
  listeners : List Nat
  cleanups : List Nat
  deps : List Nat

/-- A system: a heap of writable signal cells and one computed signal whose
computation reads cells of that heap. -/
structure SysC (V T : Type) where
  ws : List (WSig V)
  c : CSig V T

variable {V T : Type}

/-- The heap of current writable values, as read by computations. -/
def SysC.heap [Inhabited V] (s : SysC V T) : Nat → V :=
  fun i => ((s.ws[i]?).map WSig.value).getD default

/-- `computed`'s `passUpdate` handler: short-circuit on zero listeners,
recompute, gate on the equality policy, store, then notify every listener
with the stored value (`l(_state.value)`). -/
def cPassUpdate [Inhabited V] (s : SysC V T) : Except Unit (SysC V T × List (Ev V T)) :=
  if s.c.listeners = [] then .ok (s, [])
  else
    match evalComp s.heap s.c.comp with
    | .error u => .error u
    | .ok next =>
      if s.c.equal s.c.value next then .ok (s, [])
      else
        let s' : SysC V T := { s with c := { s.c with value := next } }
        .ok (s', s'.c.listeners.map (fun l => Ev.dEv l next next))

/-- Notify the given writable listeners (of the cell at index `i`, which
already stores `v`) in order: an external listener receives `v` and would
read `v` back; the `passUpdate` listener runs the computed signal's
dependency-changed handler, whose thrown exception aborts the rest of the
loop and propagates. -/
def wnotify [Inhabited V] :
    SysC V T → Nat → V → List Listener → Except Unit (SysC V T × List (Ev V T))
  | s, _, _, [] => .ok (s, [])
  | s, i, v, .ext e :: rest =>
    match wnotify s i v rest with
    | .error u => .error u
    | .ok (s', evs) => .ok (s', .wEv e v (s.heap i) :: evs)
  | s, i, v, .pass :: rest =>
    match cPassUpdate s with
    | .error u => .error u
    | .ok (s1, evs1) =>
      match wnotify s1 i v rest with
      | .error u => .error u
      | .ok (s2, evs2) => .ok (s2, evs1 ++ evs2)

/-- `signal`'s `set`: gate on the equality policy against the current
value; otherwise store the new value first and then run the listener loop. -/
def wset [Inhabited V] (s : SysC V T) (i : Nat) (v : V) :
    Except Unit (SysC V T × List (Ev V T)) :=
  match s.ws[i]? with
  | none => .ok (s, [])
  | some w =>
    if w.equal w.value v then .ok (s, [])
    else
      let s1 : SysC V T := { s with ws := s.ws.set i { w with value := v } }
      wnotify s1 i v w.listeners

/-- `signal`'s `update`: read the current value, apply `fn`, delegate to `set`. -/
def wupdate [Inhabited V] (s : SysC V T) (i : Nat) (fn : V → V) :
    Except Unit (SysC V T × List (Ev V T)) :=
  wset s i (fn (s.heap i))

/-- `computed`'s read path: with zero listeners, recompute fresh (storing
the result) and return it; with listeners, return the cached value.  (The
self-registration into an open outer frame is not modelled: all reads in
the verified scenarios happen with the tracking stack empty, where
`register` is a no-op.) -/
def cread [Inhabited V] (s : SysC V T) : Except Unit (SysC V T × T) :=
  if s.c.listeners = [] then
    match evalComp s.heap s.c.comp with
    | .error u => .error u
    | .ok next => .ok ({ s with c := { s.c with value := next } }, next)
  else .ok (s, s.c.value)

/-- Subscribe the `passUpdate` handler to each writable in `ds`, in
dependency-set order (`caller.subscribe(passUpdate)` for each dep). -/
def subDeps (ws : List (WSig V)) (ds : List Nat) : List (WSig V) :=
  ds.foldl
    (fun acc d =>
      match acc[d]? with
      | none => acc
      | some w => acc.set d { w with listeners := addL w.listeners Listener.pass })
    ws

/-- Remove the `passUpdate` handler from each writable in `ds` (running the
recorded cleanups, each of which deletes `passUpdate` from one dep's
listener set). -/
def unsubDeps (ws : List (WSig V)) (ds : List Nat) : List (WSig V) :=
  ds.foldl
    (fun acc d =>
      match acc[d]? with
      | none => acc
      | some w => acc.set d { w with listeners := removeL w.listeners Listener.pass })
    ws

/-- `computed`'s `subscribe`: on the first listener, subscribe `passUpdate`
to every dependency recording the cleanups, recompute once to seed the
cache, and deliver that value to the new listener synchronously; then add
the listener to the listener set. -/
def csubscribe [Inhabited V] (s : SysC V T) (l : Nat) :
    Except Unit (SysC V T × List (Ev V T)) :=
  if s.c.listeners = [] then
    let s1 : SysC V T :=
      { s with ws := subDeps s.ws s.c.deps,
               c := { s.c with cleanups := s.c.cleanups ++ s.c.deps } }
    match evalComp s1.heap s1.c.comp with
    | .error u => .error u
    | .ok next =>
      let s2 : SysC V T :=
        { s1 with c := { s1.c with value := next, listeners := addL s1.c.listeners l } }
      .ok (s2, [Ev.dEv l next next])
  else
    .ok ({ s with c := { s.c with listeners := addL s.c.listeners l } }, [])

/-- The unsubscribe closure returned by `computed`'s `subscribe`: delete
the listener; when the last listener goes, invoke every recorded cleanup
and clear the cleanup set. -/
def cunsub (s : SysC V T) (l : Nat) : SysC V T :=
  let ls := removeL s.c.listeners l
  if ls = [] then
    { s with ws := unsubDeps s.ws s.c.cleanups,
             c := { s.c with listeners := ls, cleanups := [] } }
  else { s with c := { s.c with listeners := ls } }

/-- `computed`'s construction: evaluate the object literal
`{value: computation(), listeners: ∅, cleanups: ∅, deps: scan(computation)}`
in source order — the unprotected seeding call first (its throw propagates
to the caller), then the scan (its second execution of the computation is
exception-protected).  The second component counts how many times the
computation was executed. -/
def computedConstruct [Inhabited V] (h : Nat → V) (comp : Comp V T)
    (equal : T → T → Bool) : Except Unit (CSig V T) × Nat :=
  match evalComp h comp with
  | .error u => (.error u, 1)
  | .ok v =>
    (.ok { comp := comp, equal := equal, value := v, listeners := [],
           cleanups := [], deps := (scan h comp []).1 }, 2)

/-- The state of a linked signal (`linkedSignal`): the source accessor
`srcFn`, the two-argument computation, the equality policy, the cached
value, the listener set (external ids), the cleanup set, and the dependency
set (`sources`).  The function-argument form has `srcFn = arg`,
`computation = fun _ _ => arg` and `deps = scan(arg)`; the configuration
form has `srcFn` read the source signal, a pure `computation` and
`deps = {source}`. -/
structure LSig (V K T : Type) where
  srcFn : Comp V K
  computation : K → Option (K × T) → Comp V T
  equal : T → T → Bool
  value : T
  listeners : List Nat
  cleanups : List Nat
  deps : List Nat

/-- A system: a heap of writable signal cells and one linked signal. -/
structure SysL (V K T : Type) where
  ws : List (WSig V)
  lsig : LSig V K T

variable {K : Type}

/-- The heap of current writable values, as read by computations. -/
def SysL.heap [Inhabited V] (s : SysL V K T) : Nat → V :=
  fun i => ((s.ws[i]?).map WSig.value).getD default

/-- The recompute block shared by the linked signal's read, `passUpdate`
and activating subscribe: `sourceVal = srcFn()` then
`computation(sourceVal, {source: sourceVal, prevValue: _state.value})`. -/
def lRecompute [Inhabited V] (s : SysL V K T) : Except Unit T :=
  match evalComp s.heap s.lsig.srcFn with
  | .error u => .error u
  | .ok sv => evalComp s.heap (s.lsig.computation sv (some (sv, s.lsig.value)))

/-- `linkedSignal`'s `passUpdate` handler: short-circuit on zero listeners,
recompute from the source, gate on the equality policy, store, then notify
every listener with the stored value. -/
def lPassUpdate [Inhabited V] (s : SysL V K T) : Except Unit (SysL V K T × List (Ev V T)) :=
  if s.lsig.listeners = [] then .ok (s, [])
  else
    match lRecompute s with
    | .error u => .error u
    | .ok next =>
      if s.lsig.equal s.lsig.value next then .ok (s, [])
      else
        let s' : SysL V K T := { s with lsig := { s.lsig with value := next } }
        .ok (s', s'.lsig.listeners.map (fun l => Ev.dEv l next next))

/-- Notify the given writable listeners within a linked-signal system;
mirrors `wnotify`. -/
def wnotifyL [Inhabited V] :
    SysL V K T → Nat → V → List Listener → Except Unit (SysL V K T × List (Ev V T))
  | s, _, _, [] => .ok (s, [])
  | s, i, v, .ext e :: rest =>
    match wnotifyL s i v rest with
    | .error u => .error u
    | .ok (s', evs) => .ok (s', .wEv e v (s.heap i) :: evs)
  | s, i, v, .pass :: rest =>
    match lPassUpdate s with
    | .error u => .error u
    | .ok (s1, evs1) =>
      match wnotifyL s1 i v rest with
      | .error u => .error u
      | .ok (s2, evs2) => .ok (s2, evs1 ++ evs2)

/-- `signal`'s `set` on a writable cell inside a linked-signal system. -/
def wsetL [Inhabited V] (s : SysL V K T) (i : Nat) (v : V) :
    Except Unit (SysL V K T × List (Ev V T)) :=
  match s.ws[i]? with
  | none => .ok (s, [])
  | some w =>
    if w.equal w.value v then .ok (s, [])
    else
      let s1 : SysL V K T := { s with ws := s.ws.set i { w with value := v } }
      wnotifyL s1 i v w.listeners

/-- `linkedSignal`'s read path: with zero listeners, recompute from the
source (storing the result, discarding any manual override) and return it;
with listeners, return the cached value. -/
def lread [Inhabited V] (s : SysL V K T) : Except Unit (SysL V K T × T) :=
  if s.lsig.listeners = [] then
    match lRecompute s with
    | .error u => .error u
    | .ok next => .ok ({ s with lsig := { s.lsig with value := next } }, next)
  else .ok (s, s.lsig.value)

/-- `linkedSignal`'s `set`: gate on the equality policy against the cached
value; otherwise store directly (bypassing the computation) and notify. -/
def lset [Inhabited V] (s : SysL V K T) (v : T) : SysL V K T × List (Ev V T) :=
  if s.lsig.equal s.lsig.value v then (s, [])
  else
    let s' : SysL V K T := { s with lsig := { s.lsig with value := v } }
    (s', s'.lsig.listeners.map (fun l => Ev.dEv l v v))

/-- `linkedSignal`'s `update`: read the cached value, apply `fn`, delegate
to `set`. -/
def lupdate [Inhabited V] (s : SysL V K T) (fn : T → T) : SysL V K T × List (Ev V T) :=
  lset s (fn s.lsig.value)

/-- `linkedSignal`'s `subscribe`: on the first listener, subscribe
`passUpdate` to every dependency recording the cleanups, recompute once
from the source to seed the cache, and deliver that value to the new
listener synchronously; then add the listener. -/
def lsubscribe [Inhabited V] (s : SysL V K T) (l : Nat) :
    Except Unit (SysL V K T × List (Ev V T)) :=
  if s.lsig.listeners = [] then
    let s1 : SysL V K T :=
      { s with ws := subDeps s.ws s.lsig.deps,
               lsig := { s.lsig with cleanups := s.lsig.cleanups ++ s.lsig.deps } }
    match lRecompute s1 with
    | .error u => .error u
    | .ok next =>
      let s2 : SysL V K T :=
        { s1 with lsig := { s1.lsig with value := next,
                                         listeners := addL s1.lsig.listeners l } }
      .ok (s2, [Ev.dEv l next next])
  else
    .ok ({ s with lsig := { s.lsig with listeners := addL s.lsig.listeners l } }, [])

/-- The unsubscribe closure returned by `linkedSignal`'s `subscribe`. -/
def lunsub (s : SysL V K T) (l : Nat) : SysL V K T :=
  let ls := removeL s.lsig.listeners l
  if ls = [] then
    { s with ws := unsubDeps s.ws s.lsig.cleanups,
             lsig := { s.lsig with listeners := ls, cleanups := [] } }
  else { s with lsig := { s.lsig with listeners := ls } }

/-- `linkedSignal`'s construction for the function-argument (non-signal)
form: `sources = scan(arg)` first, then the state literal whose seeding
value is `computation(srcFn(), undefined)` — `srcFn()` executes `arg` once
(result ignored by this form's computation) and the computation executes
`arg` again; either unprotected execution's throw propagates. -/
def linkedConstructFn [Inhabited V] (h : Nat → V) (arg : Comp V T)
    (equal : T → T → Bool) : Except Unit (LSig V T T) :=
  let deps := (scan h arg []).1
  match evalComp h arg with
  | .error u => .error u
  | .ok _sv =>
    match evalComp h arg with
    | .error u => .error u
    | .ok v =>
      .ok { srcFn := arg, computation := fun _ _ => arg, equal := equal,
            value := v, listeners := [], cleanups := [], deps := deps }

/-- `defaultEqual` from `utils.ts`: strict equality (`prev === next`),
modelled as decidable value equality on the value types used here. -/
def defaultEqual {α : Type} [DecidableEq α] : α → α → Bool :=
  fun prev next => decide (prev = next)

/-- One step of the dependency-(un)subscription folds: modify the cell at
index `d` if it exists. -/
theorem step_getElem {V : Type} (ws : List (WSig V)) (d i : Nat) (f : WSig V → WSig V) :
    (match ws[d]? with
      | none => ws
      | some w => ws.set d (f w))[i]? =
      if i = d then (ws[i]?).map f else ws[i]? := by
  rcases hd : ws[d]? with _ | w
  · have hlen : ¬ d < ws.length := by
      intro hlt
      rw [List.getElem?_eq_getElem hlt] at hd
      exact Option.noConfusion hd
    by_cases hid : i = d
    · subst hid
      simp [hd]
    · simp [hid]
  · have hlen : d < ws.length := by
      rw [List.getElem?_eq_some] at hd
      exact hd.1
    by_cases hid : i = d
    · subst hid
      simp [List.getElem?_set_self, hlen, hd]
    · simp [List.getElem?_set_ne (fun h => hid h.symm), hid]

theorem subDeps_getElem {V : Type} (ds : List Nat) (ws : List (WSig V)) (i : Nat)
    (hnd : ds.Nodup) :
    (subDeps ws ds)[i]? =
      if i ∈ ds then
        (ws[i]?).map (fun w => { w with listeners := addL w.listeners Listener.pass })
      else ws[i]? := by
  induction ds generalizing ws with
  | nil => simp [subDeps]
  | cons d rest ih =>
      rcases List.nodup_cons.mp hnd with ⟨hd, hrest⟩
      have hstep := step_getElem ws d i
        (fun w => { w with listeners := addL w.listeners Listener.pass })
      have : subDeps ws (d :: rest) =
          subDeps (match ws[d]? with
            | none => ws
            | some w => ws.set d { w with listeners := addL w.listeners Listener.pass }) rest := by
        simp [subDeps]
      rw [this, ih _ hrest]
      by_cases hir : i ∈ rest
      · have hid : i ≠ d := fun h => hd (h ▸ hir)
        simp [hir, hid, hstep]
      · by_cases hid : i = d
        · subst hid
          simp [hir, hstep]
        · simp [hir, hid, hstep]

theorem unsubDeps_getElem {V : Type} (ds : List Nat) (ws : List (WSig V)) (i : Nat)
    (hnd : ds.Nodup) :
    (unsubDeps ws ds)[i]? =
      if i ∈ ds then
        (ws[i]?).map (fun w => { w with listeners := removeL w.listeners Listener.pass })
      else ws[i]? := by
  induction ds generalizing ws with
  | nil => simp [unsubDeps]
  | cons d rest ih =>
      rcases List.nodup_cons.mp hnd with ⟨hd, hrest⟩
      have hstep := step_getElem ws d i
        (fun w => { w with listeners := removeL w.listeners Listener.pass })
      have : unsubDeps ws (d :: rest) =
          unsubDeps (match ws[d]? with
            | none => ws
            | some w => ws.set d { w with listeners := removeL w.listeners Listener.pass }) rest := by
        simp [unsubDeps]
      rw [this, ih _ hrest]
      by_cases hir : i ∈ rest
      · have hid : i ≠ d := fun h => hd (h ▸ hir)
        simp [hir, hid, hstep]
      · by_cases hid : i = d
        · subst hid
          simp [hir, hstep]
        · simp [hir, hid, hstep]

/-- Subscribing the dependency handler changes listeners only: every cell
keeps its value. -/
theorem subDeps_value {V : Type} (ds : List Nat) (ws : List (WSig V)) (i : Nat) :
    ((subDeps ws ds)[i]?).map WSig.value = (ws[i]?).map WSig.value := by
  induction ds generalizing ws with
  | nil => simp [subDeps]
  | cons d rest ih =>
      have : subDeps ws (d :: rest) =
          subDeps (match ws[d]? with
            | none => ws
            | some w => ws.set d { w with listeners := addL w.listeners Listener.pass }) rest := by
        simp [subDeps]
      rw [this, ih]
      rw [step_getElem]
      by_cases hid : i = d
      · subst hid
        rcases ws[i]? with _ | w <;> simp
      · simp [hid]

theorem unsubDeps_value {V : Type} (ds : List Nat) (ws : List (WSig V)) (i : Nat) :
    ((unsubDeps ws ds)[i]?).map WSig.value = (ws[i]?).map WSig.value := by
  induction ds generalizing ws with
  | nil => simp [unsubDeps]
  | cons d rest ih =>
      have : unsubDeps ws (d :: rest) =
          unsubDeps (match ws[d]? with
            | none => ws
            | some w => ws.set d { w with listeners := removeL w.listeners Listener.pass }) rest := by
        simp [unsubDeps]
      rw [this, ih]
      rw [step_getElem]
      by_cases hid : i = d
      · subst hid
        rcases ws[i]? with _ | w <;> simp
      · simp [hid]

theorem heap_subDeps {V T : Type} [Inhabited V] (s : SysC V T) (ds : List Nat) (c2 : CSig V T) :
    (SysC.mk (subDeps s.ws ds) c2).heap = s.heap := by
  funext i
  simp [SysC.heap, subDeps_value]

theorem heapL_subDeps {V K T : Type} [Inhabited V] (s : SysL V K T) (ds : List Nat)
    (l2 : LSig V K T) : (SysL.mk (subDeps s.ws ds) l2).heap = s.heap := by
  funext i
  simp [SysL.heap, subDeps_value]

/-- A computation that throws after reading cell 0, used to exercise the
error paths (`() => { sig(); throw ... }`). -/
def throwAfterRead : Comp Nat Nat := .read 0 (fun _ => .thrw)

/-- A computation reading cell 0 and returning its value (`() => sig()`). -/
def readCell0 : Comp Nat Nat := .read 0 Comp.ret

/-- C10: `SignalContext.scan` always restores the tracking stack to its
state before the call — it pushes exactly one frame and pops exactly one
frame even when the scanned computation throws, so the stack (hence the
stack depth and `isContextOpen`) after `scan` returns equals its value
before the call; and `register` only ever adds to the top-of-stack frame,
leaving the frames below untouched (and is a no-op on an empty stack). -/
theorem scan_stack_balance {V T : Type} (h : Nat → V) (c : Comp V T) (st : CtxStack)
    (i : Nat) (f : Frame) (rest : CtxStack) :
    (scan h c st).2 = st ∧
    isContextOpen (scan h c st).2 = isContextOpen st ∧
    register i (f :: rest) = addL f i :: rest ∧
    register i ([] : CtxStack) = [] := by
  have hs : (scan h c st).2 = st := by rw [scan_eq]
  exact ⟨hs, by rw [hs], rfl, rfl⟩

/-- C3, counterexample: for the computation `() => { dep(); throw }`, the
dependency scan does swallow the throw and returns the partially populated
set `{dep}`, but the exception does surface to the caller of `computed`'s
construction — the seeding call `value: computation()` runs before (and
outside) `scan`'s `try/catch` — refuting "no exception surfaces to the
caller of construction or activation". -/
theorem construction_throw_surfaces :
    (scan (fun _ => (0 : Nat)) throwAfterRead []).1 = [0] ∧
    (computedConstruct (fun _ => (0 : Nat)) throwAfterRead defaultEqual).1 =
      Except.error () := by
  constructor <;> rfl

/-- C3, amended: if the computation throws, `SignalContext.scan` swallows
the exception and returns the (possibly partially populated) set of signals
read before the throw, restoring the tracking stack; but no swallowing
happens at construction or activation: the unprotected seeding execution of
the computation propagates its exception to the caller of `computed`, and
the activating `subscribe`'s unprotected seeding recompute (run after the
dependency subscriptions) propagates its exception to the caller of
`subscribe`. -/
theorem scan_swallows_but_seed_throw_propagates {V T : Type} [Inhabited V]
    (h : Nat → V) (c : Comp V T) (st : CtxStack) (eq : T → T → Bool)
    (s : SysC V T) (l : Nat) :
    scan h c st = (readsComp h c, st) ∧
    (evalComp h c = Except.error () →
      (computedConstruct h c eq).1 = Except.error ()) ∧
    (s.c.listeners = [] → evalComp s.heap s.c.comp = Except.error () →
      csubscribe s l = Except.error ()) := by
  refine ⟨scan_eq h c st, fun he => ?_, fun hl he2 => ?_⟩
  · simp [computedConstruct, he]
  · have h1 : evalComp
        (SysC.mk (subDeps s.ws s.c.deps)
          { s.c with cleanups := s.c.cleanups ++ s.c.deps }).heap s.c.comp =
        Except.error () := by
      rw [heap_subDeps]
      exact he2
    unfold csubscribe
    rw [if_pos hl]
    dsimp only
    rw [h1]

/-- The inactive computed system of the C3 witness, whose computation reads
the dependency and then throws. -/
def throwingSysC : SysC Nat Nat :=
  { ws := [{ value := 0, equal := defaultEqual, listeners := [] }],
    c := { comp := throwAfterRead, equal := defaultEqual, value := 0,
           listeners := [], cleanups := [], deps := [0] } }

/-- Witness for C3's amended theorem at the concrete throwing computation:
the scan swallows and returns the partial set, construction throws, and the
activating subscribe throws. -/
theorem scan_swallows_witness :
    scan (fun _ => (0 : Nat)) throwAfterRead [] = ([0], []) ∧
    (computedConstruct (fun _ => (0 : Nat)) throwAfterRead defaultEqual).1 =
      Except.error () ∧
    csubscribe throwingSysC 9 = Except.error () :=
  ⟨(scan_swallows_but_seed_throw_propagates (fun _ => 0) throwAfterRead []
      defaultEqual throwingSysC 9).1,
    (scan_swallows_but_seed_throw_propagates (fun _ => 0) throwAfterRead []
      defaultEqual throwingSysC 9).2.1 rfl,
    (scan_swallows_but_seed_throw_propagates (fun _ => 0) throwAfterRead []
      defaultEqual throwingSysC 9).2.2 rfl rfl⟩

/-- C2, counterexample: constructing `computed(() => sig())` executes the
computation twice, not once — once for the seeding `value: computation()`
and once inside `deps: SignalContext.scan(computation)` — refuting
"executes its computation function exactly once". -/
theorem construction_runs_computation_twice :
    (computedConstruct (fun _ => (5 : Nat)) readCell0 defaultEqual).2 = 2 ∧
    (2 : Nat) ≠ 1 := by
  constructor
  · rfl
  · decide

/-- C2, amended: constructing a computed signal with a non-throwing
computation executes the computation exactly twice: the first execution
(outside any fresh tracking frame) seeds the cached value, and the second,
inside the dependency scan, captures the dependency set; the new signal
starts with zero listeners and an empty cleanup set. -/
theorem computed_construction_shape {V T : Type} [Inhabited V] (h : Nat → V)
    (c : Comp V T) (eq : T → T → Bool) (v : T) (hv : evalComp h c = Except.ok v) :
    computedConstruct h c eq =
      (Except.ok { comp := c, equal := eq, value := v, listeners := [],
                   cleanups := [], deps := readsComp h c }, 2) := by
  simp [computedConstruct, hv, scan_eq]

/-- Witness for C2's amended theorem at `() => sig()` over the heap where
cell 0 holds 5. -/
theorem computed_construction_shape_witness :
    computedConstruct (fun _ => (5 : Nat)) readCell0 defaultEqual =
      (Except.ok { comp := readCell0, equal := defaultEqual, value := 5,
                   listeners := [], cleanups := [], deps := [0] }, 2) :=
  computed_construction_shape (fun _ => 5) readCell0 defaultEqual 5 rfl

/-- Sequence a further `set` after a previous step, accumulating the
emitted notifications. -/
def andThenSet {V T : Type} [Inhabited V]
    (r : Except Unit (SysC V T × List (Ev V T))) (i : Nat) (v : V) :
    Except Unit (SysC V T × List (Ev V T)) :=
  match r with
  | .error u => .error u
  | .ok (s, tr) =>
    match wset s i v with
    | .error u => .error u
    | .ok (s2, tr2) => .ok (s2, tr ++ tr2)

/-- A computed signal that reads nothing and has no listeners; stands in
for "no derived signal is attached" in writable-only scenarios. -/
def idleC {V : Type} [Inhabited V] : CSig V Unit :=
  { comp := .ret (), equal := fun _ _ => true, value := (), listeners := [],
    cleanups := [], deps := [] }

/-- The writable cell of the custom-equality scenario:
`signal(0, {equal: (a,b) => Math.abs(a-b) <= 2})` with one subscribed
listener (id 7). -/
def nearEqSig : WSig Int :=
  { value := 0, equal := fun a b => decide ((a - b).natAbs ≤ 2),
    listeners := [.ext 7] }

/-- The custom-equality scenario's system. -/
def nearEqSys : SysC Int Unit := { ws := [nearEqSig], c := idleC }

/-- The custom-equality scenario's run: `sig.set(1); sig.set(2); sig.set(3)`. -/
def nearEqRun : Except Unit (SysC Int Unit × List (Ev Int Unit)) :=
  andThenSet (andThenSet (wset nearEqSys 0 1) 0 2) 0 3

/-- C5: a `set` whose argument is equal to the current value per the
equality policy performs no notification and no mutation at all (the
system is returned unchanged, so arbitrary repetition of such `set`/
`update` calls also leaves it unchanged); and in the concrete scenario
`sig = signal(0, {equal: (a,b) => Math.abs(a-b) <= 2})`, the run
`set(1); set(2); set(3)` produces no notification for the first two calls
and exactly one notification, with value 3, for the third. -/
theorem equal_write_is_noop {V T : Type} [Inhabited V] (s : SysC V T) (i : Nat)
    (v : V) (w : WSig V) (fn : V → V) (hw : s.ws[i]? = some w)
    (heq : w.equal w.value v = true)
    (hfn : w.equal w.value (fn w.value) = true) :
    wset s i v = Except.ok (s, []) ∧
    wupdate s i fn = Except.ok (s, []) ∧
    nearEqRun =
      Except.ok ({ nearEqSys with ws := [{ nearEqSig with value := 3 }] },
        [Ev.wEv 7 3 3]) := by
  have hh : s.heap i = w.value := by
    simp [SysC.heap, hw]
  refine ⟨?_, ?_, rfl⟩
  · simp [wset, hw, heq]
  · rw [wupdate, hh]
    simp [wset, hw, hfn]

/-- Witness for C5 at the scenario's second write (`set(2)` against the
never-notified current value 0, with `|0 - 2| ≤ 2`) and an equally gated
`update`. -/
theorem equal_write_is_noop_witness :
    wset nearEqSys 0 2 = Except.ok (nearEqSys, []) ∧
    wupdate nearEqSys 0 (fun x => x + 1) = Except.ok (nearEqSys, []) ∧
    nearEqRun =
      Except.ok ({ nearEqSys with ws := [{ nearEqSig with value := 3 }] },
        [Ev.wEv 7 3 3]) :=
  equal_write_is_noop nearEqSys 0 2 nearEqSig (fun x => x + 1) rfl (by decide) (by decide)

/-- C8: a non-equal `set(v)` on a writable signal with listeners
`[L1, L2]` (in subscription order) stores `v` first and then notifies L1
strictly before L2, each receiving `v` as argument — and the third
component of each recorded event, the value a `read()` of the signal
returns at the moment that listener runs, is already `v`. -/
theorem set_notifies_in_subscription_order {V T : Type} [Inhabited V]
    (s : SysC V T) (i : Nat) (v : V) (w : WSig V) (a b : Nat)
    (hw : s.ws[i]? = some w) (hl : w.listeners = [.ext a, .ext b])
    (hne : w.equal w.value v = false) :
    wset s i v =
      Except.ok ({ s with ws := s.ws.set i { w with value := v } },
        [Ev.wEv a v v, Ev.wEv b v v]) := by
  rcases w with ⟨wv, weq, wls⟩
  change wls = _ at hl
  subst hl
  change weq wv v = false at hne
  have hlen : i < s.ws.length := by
    rw [List.getElem?_eq_some] at hw
    exact hw.1
  have hheap :
      (SysC.mk (s.ws.set i
          { value := v, equal := weq, listeners := [.ext a, .ext b] }) s.c).heap i = v := by
    simp [SysC.heap, List.getElem?_set_self, hlen]
  simp [wset, hw, hne, wnotify, hheap]

/-- Witness for C8: `sig = signal(0)` (default equality) with listeners 1
and 2 subscribed in that order; `sig.set(1)` emits to listener 1 then
listener 2, each with argument 1 and post-write snapshot 1. -/
theorem set_notifies_in_subscription_order_witness :
    wset ({ ws := [{ value := 0, equal := defaultEqual, listeners := [.ext 1, .ext 2] }],
            c := idleC } : SysC Int Unit) 0 1 =
      Except.ok
        ({ ws := [{ value := (0 : Int), equal := defaultEqual,
                    listeners := [.ext 1, .ext 2] }].set 0
              { value := 1, equal := defaultEqual, listeners := [.ext 1, .ext 2] },
           c := idleC },
          [Ev.wEv 1 1 1, Ev.wEv 2 1 1]) :=
  set_notifies_in_subscription_order
    ({ ws := [{ value := 0, equal := defaultEqual, listeners := [.ext 1, .ext 2] }],
       c := idleC } : SysC Int Unit) 0 1
    { value := 0, equal := defaultEqual, listeners := [.ext 1, .ext 2] }
    1 2 rfl rfl (by decide)

/-- The record produced by the override-then-reset scenario's computation
`() => ({id: userId(), name: ""})`. -/
structure Form where
  id : Nat
  name : String
deriving DecidableEq

/-- The scenario computation `() => ({id: userId(), name: ""})`, reading
the writable `userId` at cell 0.  (Each execution allocates a fresh object,
so the strict-equality default policy, modelled structurally here, gates
identically on every comparison this scenario performs.) -/
def formComp : Comp Nat Form := .read 0 (fun uid => .ret { id := uid, name := "" })

/-- The linked signal `form = linkedSignal(() => ({id: userId(), name: ""}))`
as constructed over the heap where `userId` holds 1. -/
def formLsig : LSig Nat Form Form :=
  { srcFn := formComp, computation := fun _ _ => formComp, equal := defaultEqual,
    value := { id := 1, name := "" }, listeners := [], cleanups := [], deps := [0] }

/-- The scenario system: `userId = signal(1)` and the linked `form`,
never subscribed to. -/
def formSys : SysL Nat Form Form :=
  { ws := [{ value := 1, equal := defaultEqual, listeners := [] }], lsig := formLsig }

/-- The system after `form.update(f => ({...f, name: "Alice"}))`. -/
def formSys1 : SysL Nat Form Form :=
  (lupdate formSys (fun f => { f with name := "Alice" })).1

/-- C1, divergence at the failing input: with no subscriber, the manual
override written by `form.update(f => ({...f, name: "Alice"}))` is stored
(the cached value's `name` becomes `"Alice"`), but the very next `form()`
recomputes from the source — the zero-listener read path runs the
computation unconditionally and overwrites the cache — and returns
`{id: 1, name: ""}`: the override is discarded without any dependency
having fired, where the claim (and the doc example in `linked.ts`) promises
the manually set value persists until the next upstream change. -/
theorem linked_override_lost_on_inactive_read :
    linkedConstructFn (fun _ => (1 : Nat)) formComp defaultEqual =
      Except.ok formLsig ∧
    formSys1.lsig.value = { id := 1, name := "Alice" } ∧
    lread formSys1 =
      Except.ok
        ({ formSys1 with lsig := { formSys1.lsig with value := { id := 1, name := "" } } },
          { id := 1, name := "" }) ∧
    ({ id := 1, name := "" } : Form).name ≠ "Alice" := by
  refine ⟨rfl, rfl, rfl, ?_⟩
  decide

/-- The cache-consistency invariant of an active computed signal: the
cached value either is the fresh recompute or is equal to it per the
signal's equality policy. -/
def cacheOK {V T : Type} [Inhabited V] (s : SysC V T) : Prop :=
  ∃ next, evalComp s.heap s.c.comp = Except.ok next ∧
    (s.c.value = next ∨ s.c.equal s.c.value next = true)

theorem cPassUpdate_ok {V T : Type} [Inhabited V] (s : SysC V T) (next : T)
    (hl : s.c.listeners ≠ []) (he : evalComp s.heap s.c.comp = Except.ok next) :
    ∃ s2 evs, cPassUpdate s = Except.ok (s2, evs) ∧ s2.ws = s.ws ∧
      s2.c.comp = s.c.comp ∧ s2.c.equal = s.c.equal ∧
      s2.c.listeners = s.c.listeners ∧ cacheOK s2 ∧
      (s.c.equal s.c.value next = false →
        evs = s.c.listeners.map (fun l => Ev.dEv l next next)) := by
  cases hb : s.c.equal s.c.value next with
  | true =>
      refine ⟨s, [], ?_, rfl, rfl, rfl, rfl, ⟨next, he, Or.inr hb⟩, ?_⟩
      · simp [cPassUpdate, hl, he, hb]
      · intro hfalse
        exact absurd hfalse (by decide)
  | false =>
      refine ⟨{ s with c := { s.c with value := next } },
        s.c.listeners.map (fun l => Ev.dEv l next next), ?_, rfl, rfl, rfl, rfl,
        ⟨next, he, Or.inl rfl⟩, fun _ => rfl⟩
      simp [cPassUpdate, hl, he, hb]

theorem wnotify_props {V T : Type} [Inhabited V] (next : T) :
    ∀ (L : List Listener) (s : SysC V T) (i : Nat) (v : V),
      s.c.listeners ≠ [] →
      evalComp s.heap s.c.comp = Except.ok next →
      ∃ s2 evs, wnotify s i v L = Except.ok (s2, evs) ∧ s2.ws = s.ws ∧
        s2.c.comp = s.c.comp ∧ s2.c.equal = s.c.equal ∧
        s2.c.listeners = s.c.listeners ∧
        (cacheOK s → cacheOK s2) ∧
        (Listener.pass ∈ L → cacheOK s2) ∧
        (Listener.pass ∈ L → s.c.equal s.c.value next = false →
          ∀ l ∈ s.c.listeners, Ev.dEv l next next ∈ evs) := by
  intro L
  induction L with
  | nil =>
      intro s i v hl he
      exact ⟨s, [], rfl, rfl, rfl, rfl, rfl, fun hc => hc, by simp, by simp⟩
  | cons hd rest ih =>
      intro s i v hl he
      cases hd with
      | ext e =>
          obtain ⟨s2, evs, hrun, hws, hcomp, heqf, hls, hco, hp, hm⟩ := ih s i v hl he
          refine ⟨s2, Ev.wEv e v (s.heap i) :: evs, ?_, hws, hcomp, heqf, hls, hco,
            ?_, ?_⟩
          · simp [wnotify, hrun]
          · intro hmem
            exact hp (by simpa using hmem)
          · intro hmem hfalse l hlmem
            exact List.mem_cons_of_mem _ (hm (by simpa using hmem) hfalse l hlmem)
      | pass =>
          obtain ⟨s1, evs1, hrun1, hws1, hcomp1, heq1, hls1, hok1, hevs1⟩ :=
            cPassUpdate_ok s next hl he
          have hheap1 : s1.heap = s.heap := by
            funext j
            simp [SysC.heap, hws1]
          have hl1 : s1.c.listeners ≠ [] := by rw [hls1]; exact hl
          have he1 : evalComp s1.heap s1.c.comp = Except.ok next := by
            rw [hheap1, hcomp1]; exact he
          obtain ⟨s2, evs2, hrun2, hws2, hcomp2, heq2, hls2, hco2, hp2, hm2⟩ :=
            ih s1 i v hl1 he1
          refine ⟨s2, evs1 ++ evs2, ?_, by rw [hws2, hws1], by rw [hcomp2, hcomp1],
            by rw [heq2, heq1], by rw [hls2, hls1], fun _ => hco2 hok1,
            fun _ => hco2 hok1, ?_⟩
          · simp [wnotify, hrun1, hrun2]
          · intro _ hfalse l hlmem
            refine List.mem_append_left _ ?_
            rw [hevs1 hfalse]
            exact List.mem_map_of_mem _ hlmem

/-- Activation (or a further subscribe) establishes the cache invariant. -/
theorem csubscribe_cacheOK {V T : Type} [Inhabited V] (s : SysC V T) (l : Nat)
    (s2 : SysC V T) (tr : List (Ev V T)) (hpre : cacheOK s ∨ s.c.listeners = [])
    (hsub : csubscribe s l = Except.ok (s2, tr)) : cacheOK s2 := by
  unfold csubscribe at hsub
  split at hsub
  · dsimp only at hsub
    split at hsub
    · exact absurd hsub (by simp)
    · rename_i next he
      injection hsub with h
      cases h
      exact ⟨next, he, Or.inl rfl⟩
  · rename_i hl
    injection hsub with h
    cases h
    rcases hpre with hok | hempty
    · rcases hok with ⟨next, hn, hd⟩
      exact ⟨next, hn, hd⟩
    · exact absurd hempty hl

/-- A write to any writable cell preserves the cache invariant of an active
computed signal whose computation never throws and whose reads are all
wired to the `passUpdate` handler. -/
theorem wset_cacheOK {V T : Type} [Inhabited V] (s : SysC V T) (i : Nat) (v : V)
    (s2 : SysC V T) (tr : List (Ev V T))
    (htot : ∀ hp : Nat → V, ∃ n, evalComp hp s.c.comp = Except.ok n)
    (hl : s.c.listeners ≠ [])
    (hw : ∀ j, j ∈ readsComp s.heap s.c.comp →
      Listener.pass ∈ ((s.ws[j]?).map WSig.listeners).getD [])
    (hok : cacheOK s) (hset : wset s i v = Except.ok (s2, tr)) : cacheOK s2 := by
  unfold wset at hset
  split at hset
  · injection hset with h
    cases h
    exact hok
  · rename_i w hws
    split at hset
    · injection hset with h
      cases h
      exact hok
    · rename_i hg
      dsimp only at hset
      obtain ⟨n1, hn1⟩ :=
        htot (SysC.mk (s.ws.set i { w with value := v }) s.c).heap
      obtain ⟨s2', evs, hrun, hws2, hcomp2, heq2, hls2, hcache, hpassOK, _⟩ :=
        wnotify_props n1 w.listeners
          (SysC.mk (s.ws.set i { w with value := v }) s.c) i v hl hn1
      rw [hrun] at hset
      injection hset with h
      have hs2eq : s2 = s2' := (congrArg Prod.fst h).symm
      by_cases hpm : Listener.pass ∈ w.listeners
      · rw [hs2eq]
        exact hpassOK hpm
      · have hnr : i ∉ readsComp s.heap s.c.comp := by
          intro hmem
          have hmem2 := hw i hmem
          rw [hws] at hmem2
          exact hpm (by simpa using hmem2)
        have hagree : ∀ j, j ∈ readsAux s.heap s.c.comp [] →
            s.heap j = (SysC.mk (s.ws.set i { w with value := v }) s.c).heap j := by
          intro j hj
          have hji : i ≠ j := fun hij => hnr (hij ▸ hj)
          simp [SysC.heap, List.getElem?_set_ne hji]
        have heval :=
          (evalComp_congr s.heap
            (SysC.mk (s.ws.set i { w with value := v }) s.c).heap s.c.comp [] hagree).1
        rcases hok with ⟨n0, hn0, hd0⟩
        have hok1 : cacheOK (SysC.mk (s.ws.set i { w with value := v }) s.c) :=
          ⟨n0, by rw [← heval]; exact hn0, hd0⟩
        rw [hs2eq]
        exact hcache hok1

/-- C4, amended: (a) while a computed signal has zero subscribers, every
`read()` recomputes fresh, so it reflects the latest dependency values;
(b) while it has at least one subscriber, `read()` returns the cached value
without recomputing; and that cached value satisfies the invariant
`cacheOK` — it is the value a fresh execution would produce, *or merely
equal to it per the signal's equality policy* — because (c) activation
establishes `cacheOK` and (d) every dependency write preserves it (for a
never-throwing computation whose reads are all wired to `passUpdate`).
The original claim's stronger "returns the same value a fresh execution
would produce" fails, as the counterexample shows. -/
theorem computed_lazy_active_cache {V T : Type} [Inhabited V] (s : SysC V T) :
    (∀ next, s.c.listeners = [] → evalComp s.heap s.c.comp = Except.ok next →
      cread s = Except.ok ({ s with c := { s.c with value := next } }, next)) ∧
    (s.c.listeners ≠ [] → cread s = Except.ok (s, s.c.value)) ∧
    (∀ l s2 tr, (cacheOK s ∨ s.c.listeners = []) →
      csubscribe s l = Except.ok (s2, tr) → cacheOK s2) ∧
    (∀ i v s2 tr,
      (∀ hp : Nat → V, ∃ n, evalComp hp s.c.comp = Except.ok n) →
      s.c.listeners ≠ [] →
      (∀ j, j ∈ readsComp s.heap s.c.comp →
        Listener.pass ∈ ((s.ws[j]?).map WSig.listeners).getD []) →
      cacheOK s →
      wset s i v = Except.ok (s2, tr) → cacheOK s2) := by
  refine ⟨?_, ?_, ?_, ?_⟩
  · intro next hl he
    simp [cread, hl, he]
  · intro hl
    simp [cread, hl]
  · intro l s2 tr hpre hsub
    exact csubscribe_cacheOK s l s2 tr hpre hsub
  · intro i v s2 tr htot hl hw hok hset
    exact wset_cacheOK s i v s2 tr htot hl hw hok hset

/-- The computed signal of the active-cache scenarios:
`c = computed(() => a(), {equal: (x,y) => Math.abs(x-y) <= 2})` over
`a = signal(0)`, already activated by listener 9 (so `passUpdate` is
subscribed to `a` and the cleanup is recorded). -/
def nearEqActiveSys : SysC Int Int :=
  { ws := [{ value := 0, equal := defaultEqual, listeners := [.pass] }],
    c := { comp := .read 0 Comp.ret,
           equal := fun x y => decide ((x - y).natAbs ≤ 2), value := 0,
           listeners := [9], cleanups := [0], deps := [0] } }

/-- The active-cache scenario after `a.set(1)`. -/
def nearEqActiveSys1 : SysC Int Int :=
  match wset nearEqActiveSys 0 1 with
  | .ok p => p.1
  | .error _ => nearEqActiveSys

/-- C4, counterexample: with `a = signal(0)` and the active computed
`c = computed(() => a(), {equal: (x,y) => Math.abs(x-y) <= 2})` (one
subscriber), after `a.set(1)` the dependency handler recomputes `1` but the
equality policy gates the store (`|0-1| ≤ 2`), so `c()` returns the cached
`0` while a fresh execution of the computation produces `1` — refuting
"every read() returns the same value a fresh execution of its computation
would produce at that moment". -/
theorem active_cache_differs_from_fresh :
    wset nearEqActiveSys 0 1 = Except.ok (nearEqActiveSys1, []) ∧
    cread nearEqActiveSys1 = Except.ok (nearEqActiveSys1, 0) ∧
    evalComp nearEqActiveSys1.heap nearEqActiveSys1.c.comp = Except.ok 1 ∧
    (0 : Int) ≠ 1 := by
  refine ⟨rfl, rfl, rfl, ?_⟩
  decide

/-- Witness for C4's amended theorem: at the concrete active scenario, the
cache invariant survives the gated write `a.set(1)` (conjunct (d)), with
every hypothesis discharged at the concrete input. -/
theorem computed_lazy_active_cache_witness : cacheOK nearEqActiveSys1 :=
  (computed_lazy_active_cache nearEqActiveSys).2.2.2 0 1 nearEqActiveSys1 []
    (fun hp => ⟨hp 0, rfl⟩) (by decide)
    (by
      intro j hj
      have hj0 : j = 0 := by simpa [readsComp, readsAux, addL] using hj
      subst hj0
      decide)
    ⟨0, rfl, Or.inl rfl⟩ rfl

/-- Reduction of `computed`'s `subscribe` on an inactive signal whose
computation evaluates to `next`. -/
theorem csubscribe_inactive_eq {V T : Type} [Inhabited V] (s : SysC V T) (l : Nat)
    (next : T) (hl : s.c.listeners = [])
    (hnext : evalComp s.heap s.c.comp = Except.ok next) :
    csubscribe s l =
      Except.ok
        ({ ws := subDeps s.ws s.c.deps, c := { s.c with value := next, listeners := [l], cleanups := s.c.cleanups ++ s.c.deps } },
          [Ev.dEv l next next]) := by
  have h1 : evalComp
      (SysC.mk (subDeps s.ws s.c.deps)
        { s.c with cleanups := s.c.cleanups ++ s.c.deps }).heap s.c.comp =
      Except.ok next := by
    rw [heap_subDeps]
    exact hnext
  unfold csubscribe
  rw [if_pos hl]
  dsimp only
  rw [h1]
  simp [hl, addL]

/-- Reduction of `linkedSignal`'s `subscribe` on an inactive signal. -/
theorem lsubscribe_inactive_eq {V K T : Type} [Inhabited V] (sl : SysL V K T)
    (l2 : Nat) (sv : K) (next2 : T) (hlL : sl.lsig.listeners = [])
    (hsv : evalComp sl.heap sl.lsig.srcFn = Except.ok sv)
    (hnext2 : evalComp sl.heap (sl.lsig.computation sv (some (sv, sl.lsig.value))) =
      Except.ok next2) :
    lsubscribe sl l2 =
      Except.ok
        ({ ws := subDeps sl.ws sl.lsig.deps, lsig := { sl.lsig with value := next2, listeners := [l2], cleanups := sl.lsig.cleanups ++ sl.lsig.deps } },
          [Ev.dEv l2 next2 next2]) := by
  have hh := heapL_subDeps sl sl.lsig.deps
    { sl.lsig with cleanups := sl.lsig.cleanups ++ sl.lsig.deps }
  have h1 : lRecompute
      (SysL.mk (subDeps sl.ws sl.lsig.deps)
        { sl.lsig with cleanups := sl.lsig.cleanups ++ sl.lsig.deps }) =
      Except.ok next2 := by
    unfold lRecompute
    dsimp only
    rw [hh, hsv]
    exact hnext2
  unfold lsubscribe
  rw [if_pos hlL]
  dsimp only
  rw [h1]
  simp [hlL, addL]

/-- The per-dependency effect of the activation loop: `passUpdate` is
appended to a dependency's listener set. -/
theorem subDeps_appends_pass {V : Type} (ws : List (WSig V)) (ds : List Nat)
    (d : Nat) (w : WSig V) (hnd : ds.Nodup) (hmem : d ∈ ds)
    (hwd : ws[d]? = some w) (hnp : Listener.pass ∉ w.listeners) :
    (subDeps ws ds)[d]? = some { w with listeners := w.listeners ++ [Listener.pass] } := by
  rw [subDeps_getElem ds ws d hnd, if_pos hmem, hwd]
  simp [addL, hnp]

/-- C6: the first `subscribe` on an inactive computed or linked signal
subscribes the internal `passUpdate` handler to every signal in the
dependency set (appending it to each dependency's listener set), records
one cleanup per dependency in the cleanup set, recomputes once to seed a
fresh cache, and synchronously delivers that freshly computed value to the
newly added listener before `subscribe` returns (that delivery is the
single emitted event).  The third conjunct is the per-dependency effect of
the activation loop shared by both signal kinds. -/
theorem first_subscribe_activates {V T K U : Type} [Inhabited V]
    (s : SysC V T) (sl : SysL V K U) (l l2 : Nat) (next : T) (sv : K) (next2 : U)
    (hlC : s.c.listeners = [])
    (hnextC : evalComp s.heap s.c.comp = Except.ok next)
    (hlL : sl.lsig.listeners = [])
    (hsv : evalComp sl.heap sl.lsig.srcFn = Except.ok sv)
    (hnext2 : evalComp sl.heap (sl.lsig.computation sv (some (sv, sl.lsig.value))) =
      Except.ok next2) :
    csubscribe s l =
      Except.ok
        ({ ws := subDeps s.ws s.c.deps, c := { s.c with value := next, listeners := [l], cleanups := s.c.cleanups ++ s.c.deps } },
          [Ev.dEv l next next]) ∧
    lsubscribe sl l2 =
      Except.ok
        ({ ws := subDeps sl.ws sl.lsig.deps, lsig := { sl.lsig with value := next2, listeners := [l2], cleanups := sl.lsig.cleanups ++ sl.lsig.deps } },
          [Ev.dEv l2 next2 next2]) ∧
    (∀ (ws : List (WSig V)) (ds : List Nat) (d : Nat) (w : WSig V), ds.Nodup →
      d ∈ ds → ws[d]? = some w → Listener.pass ∉ w.listeners →
      (subDeps ws ds)[d]? = some { w with listeners := w.listeners ++ [Listener.pass] }) :=
  ⟨csubscribe_inactive_eq s l next hlC hnextC,
    lsubscribe_inactive_eq sl l2 sv next2 hlL hsv hnext2,
    fun ws ds d w hnd hmem hwd hnp => subDeps_appends_pass ws ds d w hnd hmem hwd hnp⟩

/-- The computed side of the activation-scenario witness:
`a = signal(4)` with an unrelated external listener, and the inactive
`c = computed(() => a())`. -/
def activationSysC : SysC Int Int :=
  { ws := [{ value := 4, equal := defaultEqual, listeners := [.ext 3] }],
    c := { comp := .read 0 Comp.ret, equal := defaultEqual, value := 0,
           listeners := [], cleanups := [], deps := [0] } }

/-- The linked side of the activation-scenario witness: source `signal(2)`
and the inactive linked signal doubling it. -/
def activationSysL : SysL Int Int Int :=
  { ws := [{ value := 2, equal := defaultEqual, listeners := [] }],
    lsig := { srcFn := .read 0 Comp.ret,
              computation := fun sv _ => .ret (2 * sv), equal := defaultEqual,
              value := 0, listeners := [], cleanups := [], deps := [0] } }

/-- Witness for C6 at the concrete activation scenarios. -/
theorem first_subscribe_activates_witness :
    csubscribe activationSysC 8 =
      Except.ok
        ({ ws := [{ value := 4, equal := defaultEqual, listeners := [.ext 3, .pass] }],
           c := { comp := .read 0 Comp.ret, equal := defaultEqual, value := 4,
                  listeners := [8], cleanups := [0], deps := [0] } },
          [Ev.dEv 8 4 4]) ∧
    lsubscribe activationSysL 5 =
      Except.ok
        ({ ws := [{ value := 2, equal := defaultEqual, listeners := [.pass] }],
           lsig := { srcFn := .read 0 Comp.ret,
                     computation := fun sv _ => .ret (2 * sv),
                     equal := defaultEqual, value := 4, listeners := [5],
                     cleanups := [0], deps := [0] } },
          [Ev.dEv 5 4 4]) :=
  ⟨(first_subscribe_activates activationSysC activationSysL 8 5 4 2 4
      rfl rfl rfl rfl rfl).1,
    (first_subscribe_activates activationSysC activationSysL 8 5 4 2 4
      rfl rfl rfl rfl rfl).2.1⟩

theorem removeL_addL {α : Type} [DecidableEq α] (xs : List α) (a : α) (h : a ∉ xs) :
    removeL (addL xs a) a = xs := by
  rw [addL, if_neg h]
  induction xs with
  | nil => simp [removeL]
  | cons x rest ih =>
      have hx : x ≠ a := fun hxa => h (hxa ▸ List.mem_cons_self x rest)
      have hr : a ∉ rest := fun hm => h (List.mem_cons_of_mem x hm)
      simp only [List.cons_append, removeL, if_neg hx]
      exact congrArg (x :: ·) (ih hr)

/-- With no derived listener attached, a writable notification loop emits
only writable events: no derived-signal event can occur. -/
theorem wnotify_no_dEv {V T : Type} [Inhabited V] :
    ∀ (L : List Listener) (s : SysC V T) (i : Nat) (v : V) (s2 : SysC V T)
      (evs : List (Ev V T)), s.c.listeners = [] →
      wnotify s i v L = Except.ok (s2, evs) →
      ∀ a (x y : T), Ev.dEv a x y ∈ evs → False := by
  intro L
  induction L with
  | nil =>
      intro s i v s2 evs hl hrun a x y hmem
      injection hrun with h
      cases h
      simp at hmem
  | cons hd rest ih =>
      intro s i v s2 evs hl hrun a x y hmem
      cases hd with
      | ext e =>
          rw [wnotify] at hrun
          rcases hrest : wnotify s i v rest with u | p
          · rw [hrest] at hrun
            exact absurd hrun (by simp)
          · rw [hrest] at hrun
            injection hrun with h
            cases h
            rcases List.mem_cons.mp hmem with hhd | htl
            · exact Ev.noConfusion hhd
            · exact ih s i v p.1 p.2 hl (by rw [hrest]) a x y htl
      | pass =>
          rw [wnotify] at hrun
          have hpu : cPassUpdate s = Except.ok (s, []) := by
            rw [cPassUpdate, if_pos hl]
          rw [hpu] at hrun
          dsimp only at hrun
          rcases hrest : wnotify s i v rest with u | p
          · rw [hrest] at hrun
            exact absurd hrun (by simp)
          · rw [hrest] at hrun
            injection hrun with h
            cases h
            exact ih s i v p.1 p.2 hl (by rw [hrest]) a x y (by simpa using hmem)

/-- With no derived listener attached, no write to any writable signal
produces a derived-signal notification. -/
theorem wset_no_dEv {V T : Type} [Inhabited V] (s : SysC V T) (i : Nat) (v : V)
    (s2 : SysC V T) (tr : List (Ev V T)) (hl : s.c.listeners = [])
    (hset : wset s i v = Except.ok (s2, tr)) :
    ∀ a (x y : T), Ev.dEv a x y ∈ tr → False := by
  intro a x y hmem
  unfold wset at hset
  split at hset
  · injection hset with h
    cases h
    simp at hmem
  · rename_i w hws
    split at hset
    · injection hset with h
      cases h
      simp at hmem
    · dsimp only at hset
      exact wnotify_no_dEv w.listeners
        (SysC.mk (s.ws.set i { w with value := v }) s.c) i v s2 tr hl hset a x y hmem

/-- C7: when the unsubscribe closure returned by a computed signal's
`subscribe` removes the last listener, every recorded cleanup is invoked
and the cleanup set cleared, so every dependency's listener set returns
exactly to its pre-subscribe state, and a subsequent write to any
dependency produces no derived-signal notification at all (in particular
the removed listener is never invoked again). -/
theorem unsubscribe_releases_dependencies {V T : Type} [Inhabited V] (s : SysC V T)
    (l : Nat) (next : T)
    (hl : s.c.listeners = []) (hcl : s.c.cleanups = []) (hnd : s.c.deps.Nodup)
    (hnp : ∀ d w, d ∈ s.c.deps → s.ws[d]? = some w → Listener.pass ∉ w.listeners)
    (hnext : evalComp s.heap s.c.comp = Except.ok next) :
    ∀ s1 tr1, csubscribe s l = Except.ok (s1, tr1) →
      (∀ i : Nat, (cunsub s1 l).ws[i]? = s.ws[i]?) ∧
      (cunsub s1 l).c.listeners = [] ∧
      (cunsub s1 l).c.cleanups = [] ∧
      (∀ i v s2 tr a (x y : T), wset (cunsub s1 l) i v = Except.ok (s2, tr) →
        Ev.dEv a x y ∈ tr → False) := by
  intro s1 tr1 hsub
  rw [csubscribe_inactive_eq s l next hl hnext] at hsub
  injection hsub with h
  cases h
  have hc : cunsub
      ({ ws := subDeps s.ws s.c.deps, c := { s.c with value := next, listeners := [l], cleanups := s.c.cleanups ++ s.c.deps } } : SysC V T) l =
      { ws := unsubDeps (subDeps s.ws s.c.deps) (s.c.cleanups ++ s.c.deps),
        c := { s.c with value := next, listeners := [], cleanups := [] } } := by
    unfold cunsub
    simp [removeL]
  rw [hc]
  have hws : ∀ i : Nat, (unsubDeps (subDeps s.ws s.c.deps) (s.c.cleanups ++ s.c.deps))[i]? =
      s.ws[i]? := by
    intro i
    rw [hcl, List.nil_append]
    rw [unsubDeps_getElem _ _ _ hnd, subDeps_getElem _ _ _ hnd]
    by_cases hmem : i ∈ s.c.deps
    · rw [if_pos hmem, if_pos hmem]
      rcases hwi : s.ws[i]? with _ | w
      · rfl
      · have hnpw := hnp i w hmem hwi
        simp [removeL_addL _ _ hnpw]
    · rw [if_neg hmem, if_neg hmem]
  refine ⟨hws, rfl, rfl, ?_⟩
  intro i v s2 tr a x y hset hmem
  exact wset_no_dEv _ i v s2 tr rfl hset a x y hmem

/-- The activation scenario's computed system after its first subscribe
(listener 8): `passUpdate` attached to the dependency, cache seeded,
cleanup recorded. -/
def c7activated : SysC Int Int :=
  { ws := [{ value := 4, equal := defaultEqual, listeners := [.ext 3, .pass] }],
    c := { comp := .read 0 Comp.ret, equal := defaultEqual, value := 4,
           listeners := [8], cleanups := [0], deps := [0] } }

/-- Witness for C7 at the concrete subscribe-then-unsubscribe run. -/
theorem unsubscribe_releases_dependencies_witness :
    (∀ i : Nat, (cunsub c7activated 8).ws[i]? = activationSysC.ws[i]?) ∧
    (cunsub c7activated 8).c.listeners = [] ∧
    (cunsub c7activated 8).c.cleanups = [] ∧
    (∀ i v s2 tr a (x y : Int), wset (cunsub c7activated 8) i v = Except.ok (s2, tr) →
      Ev.dEv a x y ∈ tr → False) :=
  unsubscribe_releases_dependencies activationSysC 8 4 rfl rfl (by decide)
    (by
      intro d w hd hw
      have hd0 : d = 0 := by simpa [activationSysC] using hd
      subst hd0
      have hwlit : ({ value := 4, equal := defaultEqual, listeners := [.ext 3] } : WSig Int) = w := by
        simpa [activationSysC] using hw
      rw [← hwlit]
      decide)
    rfl c7activated [Ev.dEv 8 4 4] rfl

theorem mem_addL_self {α : Type} [DecidableEq α] (xs : List α) (a : α) : a ∈ addL xs a := by
  by_cases h : a ∈ xs <;> simp [addL, h]

theorem addL_ne_nil {α : Type} [DecidableEq α] (xs : List α) (a : α) : addL xs a ≠ [] :=
  List.ne_nil_of_mem (mem_addL_self xs a)

theorem wnotifyL_ext_only {V K T : Type} [Inhabited V] :
    ∀ (L : List Listener) (s : SysL V K T) (i : Nat) (v : V), Listener.pass ∉ L →
      ∃ evs, wnotifyL s i v L = Except.ok (s, evs) := by
  intro L
  induction L with
  | nil => intro s i v _; exact ⟨[], rfl⟩
  | cons hd rest ih =>
      intro s i v hnp
      cases hd with
      | ext e =>
          obtain ⟨evs, hrun⟩ := ih s i v (fun hm => hnp (List.mem_cons_of_mem _ hm))
          refine ⟨Ev.wEv e v (s.heap i) :: evs, ?_⟩
          rw [wnotifyL, hrun]
      | pass => exact absurd (List.mem_cons_self _ _) hnp

/-- In a linked-signal system whose derived listeners would observe a
non-gated change, any notification list containing the `passUpdate` handler
delivers the recomputed value to every derived listener. -/
theorem wnotifyL_emits {V K T : Type} [Inhabited V] (next : T) :
    ∀ (L : List Listener) (s : SysL V K T) (i : Nat) (v : V), L.Nodup →
      s.lsig.listeners ≠ [] → lRecompute s = Except.ok next →
      s.lsig.equal s.lsig.value next = false →
      ∃ s2 evs, wnotifyL s i v L = Except.ok (s2, evs) ∧
        (Listener.pass ∈ L → ∀ l ∈ s.lsig.listeners, Ev.dEv l next next ∈ evs) := by
  intro L
  induction L with
  | nil => intro s i v _ _ _ _; exact ⟨s, [], rfl, by simp⟩
  | cons hd rest ih =>
      intro s i v hnd hl hrec hgate
      rcases List.nodup_cons.mp hnd with ⟨hnotin, hrest⟩
      cases hd with
      | ext e =>
          obtain ⟨s2, evs, hrun, hm⟩ := ih s i v hrest hl hrec hgate
          refine ⟨s2, Ev.wEv e v (s.heap i) :: evs, ?_, ?_⟩
          · rw [wnotifyL, hrun]
          · intro hp l hlm
            exact List.mem_cons_of_mem _ (hm (by simpa using hp) l hlm)
      | pass =>
          have hpu : lPassUpdate s =
              Except.ok ({ s with lsig := { s.lsig with value := next } },
                s.lsig.listeners.map (fun l => Ev.dEv l next next)) := by
            simp [lPassUpdate, hl, hrec, hgate]
          obtain ⟨evs2, hrun2⟩ :=
            wnotifyL_ext_only rest ({ s with lsig := { s.lsig with value := next } }) i v hnotin
          refine ⟨{ s with lsig := { s.lsig with value := next } },
            s.lsig.listeners.map (fun l => Ev.dEv l next next) ++ evs2, ?_, ?_⟩
          · rw [wnotifyL, hpu]
            dsimp only
            rw [hrun2]
          · intro _ l hlm
            exact List.mem_append_left _ (List.mem_map_of_mem _ hlm)

/-- C9: a `subscribe` on an already-active computed or linked signal only
adds the listener to the listener set — no dependency subscription, no
recompute, and no synchronous initial delivery (the returned event list is
empty) — and the new listener is first invoked at the next
dependency-triggered change: a subsequent non-gated write to a dependency
carrying the `passUpdate` handler delivers the recomputed value to it. -/
theorem subscribe_when_active {V T K U : Type} [Inhabited V]
    (s : SysC V T) (sl : SysL V K U) (l l2 : Nat)
    (hl : s.c.listeners ≠ []) (hlL : sl.lsig.listeners ≠ []) :
    csubscribe s l =
      Except.ok ({ s with c := { s.c with listeners := addL s.c.listeners l } }, []) ∧
    lsubscribe sl l2 =
      Except.ok ({ sl with lsig := { sl.lsig with listeners := addL sl.lsig.listeners l2 } }, []) ∧
    (∀ i v (w : WSig V) next s2 tr, s.ws[i]? = some w → Listener.pass ∈ w.listeners →
      w.equal w.value v = false →
      evalComp (SysC.mk (s.ws.set i { w with value := v }) s.c).heap s.c.comp =
        Except.ok next →
      s.c.equal s.c.value next = false →
      wset ({ s with c := { s.c with listeners := addL s.c.listeners l } }) i v =
        Except.ok (s2, tr) →
      Ev.dEv l next next ∈ tr) ∧
    (∀ i v (w : WSig V) next2 s2 tr, sl.ws[i]? = some w → w.listeners.Nodup →
      Listener.pass ∈ w.listeners →
      w.equal w.value v = false →
      lRecompute (SysL.mk (sl.ws.set i { w with value := v })
        { sl.lsig with listeners := addL sl.lsig.listeners l2 }) = Except.ok next2 →
      sl.lsig.equal sl.lsig.value next2 = false →
      wsetL ({ sl with lsig := { sl.lsig with listeners := addL sl.lsig.listeners l2 } }) i v =
        Except.ok (s2, tr) →
      Ev.dEv l2 next2 next2 ∈ tr) := by
  refine ⟨?_, ?_, ?_, ?_⟩
  · unfold csubscribe
    rw [if_neg hl]
  · unfold lsubscribe
    rw [if_neg hlL]
  · intro i v w next s2 tr hws hpm hgw hnext hgate hset
    unfold wset at hset
    dsimp only at hset
    split at hset
    · rename_i hnone
      exact absurd (hws.symm.trans hnone) (by simp)
    · rename_i w2 hsome
      have hw2 : w = w2 := by
        have := hws.symm.trans hsome
        exact (Option.some.injEq _ _).mp this
      subst hw2
      split at hset
      · rename_i hg
        exact absurd hg (by simp [hgw])
      · obtain ⟨s2', evs, hrun, _, _, _, _, _, _, hm⟩ :=
          wnotify_props next w.listeners
            (SysC.mk (s.ws.set i { w with value := v })
              { s.c with listeners := addL s.c.listeners l }) i v
            (addL_ne_nil s.c.listeners l) hnext
        rw [hrun] at hset
        injection hset with h
        cases h
        exact hm hpm hgate l (mem_addL_self s.c.listeners l)
  · intro i v w next2 s2 tr hws hndl hpm hgw hrec hgate hset
    unfold wsetL at hset
    dsimp only at hset
    split at hset
    · rename_i hnone
      exact absurd (hws.symm.trans hnone) (by simp)
    · rename_i w2 hsome
      have hw2 : w = w2 := by
        have := hws.symm.trans hsome
        exact (Option.some.injEq _ _).mp this
      subst hw2
      split at hset
      · rename_i hg
        exact absurd hg (by simp [hgw])
      · obtain ⟨s2', evs, hrun, hm⟩ :=
          wnotifyL_emits next2 w.listeners
            (SysL.mk (sl.ws.set i { w with value := v })
              { sl.lsig with listeners := addL sl.lsig.listeners l2 }) i v hndl
            (addL_ne_nil sl.lsig.listeners l2) hrec hgate
        rw [hrun] at hset
        injection hset with h
        cases h
        exact hm hpm l2 (mem_addL_self sl.lsig.listeners l2)

/-- The active computed system of the C9 witness: dependency wired, one
existing listener (id 9). -/
def activeSysC9 : SysC Int Int :=
  { ws := [{ value := 0, equal := defaultEqual, listeners := [.pass] }],
    c := { comp := .read 0 Comp.ret, equal := defaultEqual, value := 0,
           listeners := [9], cleanups := [0], deps := [0] } }

/-- The active linked system of the C9 witness: source wired, one existing
listener (id 7). -/
def activeSysL9 : SysL Int Int Int :=
  { ws := [{ value := 0, equal := defaultEqual, listeners := [.pass] }],
    lsig := { srcFn := .read 0 Comp.ret, computation := fun sv _ => .ret (2 * sv),
              equal := defaultEqual, value := 0, listeners := [7],
              cleanups := [0], deps := [0] } }

/-- Witness for C9: late subscribes on the active systems add the listener
with an empty event list, and the late computed listener (id 5) is notified
by the next dependency write. -/
theorem subscribe_when_active_witness :
    csubscribe activeSysC9 5 =
      Except.ok ({ activeSysC9 with c := { activeSysC9.c with listeners := [9, 5] } }, []) ∧
    lsubscribe activeSysL9 4 =
      Except.ok ({ activeSysL9 with lsig := { activeSysL9.lsig with listeners := [7, 4] } }, []) ∧
    Ev.dEv 5 1 1 ∈ ([Ev.dEv 9 1 1, Ev.dEv 5 1 1] : List (Ev Int Int)) :=
  ⟨(subscribe_when_active activeSysC9 activeSysL9 5 4 (by decide) (by decide)).1,
    (subscribe_when_active activeSysC9 activeSysL9 5 4 (by decide) (by decide)).2.1,
    (subscribe_when_active activeSysC9 activeSysL9 5 4 (by decide) (by decide)).2.2.1
      0 1 { value := 0, equal := defaultEqual, listeners := [.pass] } 1
      ({ ws := [{ value := 1, equal := defaultEqual, listeners := [.pass] }],
         c := { comp := .read 0 Comp.ret, equal := defaultEqual, value := 1,
                listeners := [9, 5], cleanups := [0], deps := [0] } })
      [Ev.dEv 9 1 1, Ev.dEv 5 1 1]
      rfl (by decide) (by decide) rfl (by decide) rfl⟩
